import Mathlib

/-!
Verification of the ECG/PWM firmware simulation program
(`22017751_EmirDulger.c`) against its natural-language specification.

The C program is embedded shallowly:

* C `int` values become `Int` (no overflow occurs in the ranges exercised);
* C `double` values become exact dyadic rationals, represented as a pair
  `(m, e) : Nat × Int` with value `m * 2 ^ e`.  Every `double` arising in
  the program is non-negative, and all operations (`/`, `*`, `+`, literal
  conversion) are modelled by exact rational arithmetic followed by IEEE-754
  round-to-nearest, ties-to-even at 53 significand bits (`roundQ`).  The
  value range of the program (between 2^-62 and about 2500) is far away from
  binary64 overflow and subnormal thresholds, so the unbounded-exponent
  rounding model coincides with binary64 arithmetic there;
* the input stream is a `List Char`; `fscanf(.., "%d,%d", ..)` is modelled
  character by character (`fscanf2`);
* console output and the other I/O actions of `main` are modelled as an
  explicit effect trace (`Eff`).
-/

set_option maxRecDepth 1000000

namespace ECG

/-! ### The binary64 rounding model -/

/-- Number of binary digits of `n` (`0` for `n = 0`).  The first argument is
fuel; `n` itself is always enough fuel, see `bitsAux_correct`. -/
def bitsAux : Nat → Nat → Nat
  | 0, _ => 0
  | f + 1, n => if n = 0 then 0 else bitsAux f (n / 2) + 1

/-- Number of binary digits of `n`, i.e. `⌊log₂ n⌋ + 1` for `n ≥ 1`. -/
def bits (n : Nat) : Nat := bitsAux n n

/-- Round the rational `a / b` (with `b ≠ 0`) to the nearest natural number,
ties to even. -/
def rhe (a b : Nat) : Nat :=
  let q := a / b
  let r := a % b
  if 2 * r < b then q
  else if b < 2 * r then q + 1
  else if q % 2 = 0 then q else q + 1

/-- The binade exponent of `num / den` for `num, den ≥ 1`: the unique `e`
with `2 ^ e ≤ num / den < 2 ^ (e + 1)`. -/
def exponent (num den : Nat) : Int :=
  let e0 : Int := (bits num : Int) - (bits den : Int)
  let ge : Bool :=
    if 0 ≤ e0 then decide (den * 2 ^ e0.toNat ≤ num)
    else decide (den ≤ num * 2 ^ (-e0).toNat)
  if ge then e0 else e0 - 1

/-- Rounded 53-bit significand of `num / den` (`num, den ≥ 1`): the rational
`num / den * 2 ^ (52 - exponent)` lies in `[2^52, 2^53)` and is rounded to
the nearest integer, ties to even. -/
def roundQm (num den : Nat) : Nat :=
  let e := exponent num den
  if e ≤ 52 then rhe (num * 2 ^ (52 - e).toNat) den
  else rhe num (den * 2 ^ (e - 52).toNat)

/-- IEEE-754 binary64 round-to-nearest-even of the non-negative rational
`num / den`, returned as `(m, e)` with value `m * 2 ^ e`. -/
def roundQ (num den : Nat) : Nat × Int :=
  if num = 0 then (0, 0) else (roundQm num den, exponent num den - 52)

/-- Exact rational value of a dyadic pair. -/
def val (x : Nat × Int) : ℚ := (x.1 : ℚ) * 2 ^ x.2

/-- Round the dyadic rational `M * 2 ^ e` to binary64. -/
def roundDyadic (M : Nat) (e : Int) : Nat × Int :=
  if 0 ≤ e then roundQ (M * 2 ^ e.toNat) 1 else roundQ M (2 ^ (-e).toNat)

/-- IEEE-754 binary64 addition of two non-negative doubles: the exact sum,
rounded. -/
def dyAdd (x y : Nat × Int) : Nat × Int :=
  let e := min x.2 y.2
  roundDyadic (x.1 * 2 ^ (x.2 - e).toNat + y.1 * 2 ^ (y.2 - e).toNat) e

/-- The C cast `(int)` applied to a non-negative double: truncation toward
zero, i.e. the floor. -/
def fpTrunc (x : Nat × Int) : Nat :=
  if 0 ≤ x.2 then x.1 * 2 ^ x.2.toNat else x.1 / 2 ^ (-x.2).toNat

/-- The integer printed for a non-negative double by `printf("%.3f", ·)`,
in thousandths: the exact value times 1000, rounded to the nearest integer
(ties to even; an exact tie would require the value times 2000 to be an odd
integer). -/
def shown3 (x : Nat × Int) : Nat :=
  if 0 ≤ x.2 then 1000 * x.1 * 2 ^ x.2.toNat
  else rhe (1000 * x.1) (2 ^ (-x.2).toNat)

/-! ### Source constants (`#define` lines of the C file) -/

/-- `#define TIMER_RELOAD_VAL 1000` -/
def TIMER_RELOAD_VAL : Nat := 1000

/-- `#define MAX_HR_LIMIT 200.0`; the value 200 is exactly representable,
and the program only uses `(int)MAX_HR_LIMIT = 200` and divisions by it. -/
def MAX_HR_LIMIT : Nat := 200

/-- `#define SOURCE_FILE "patient_data.csv"` -/
def SOURCE_FILE : String := "patient_data.csv"

/-- `#define STATUS_NORMAL 0x0000` -/
def STATUS_NORMAL : Nat := 0x0000

/-- `#define STATUS_WARNING 0x5555` -/
def STATUS_WARNING : Nat := 0x5555

/-- `#define STATUS_CRITICAL 0xAAAA` -/
def STATUS_CRITICAL : Nat := 0xAAAA

/-- `#define STATUS_FAILURE 0xFFFF` -/
def STATUS_FAILURE : Nat := 0xFFFF

/-- The `double` literal `0.001` of `sys_time_sec += 0.001`: the binary64
value nearest to 1/1000. -/
def c001 : Nat × Int := roundQ 1 1000

/-! ### `compute_pwm_register` -/

/-- `compute_pwm_register` from the C source:
```
int compute_pwm_register(int heart_rate_input) {
    if (heart_rate_input > (int)MAX_HR_LIMIT) heart_rate_input = (int)MAX_HR_LIMIT;
    if (heart_rate_input < 0) heart_rate_input = 0;
    return (int)((float)heart_rate_input / MAX_HR_LIMIT * TIMER_RELOAD_VAL);
}
```
After clamping, `heart_rate_input ∈ [0, 200]`, so the `(float)` conversion is
exact; the division by the `double` 200.0 happens in binary64, as does the
multiplication by 1000; the final `(int)` cast truncates toward zero. -/
def compute_pwm_register (heart_rate_input : Int) : Int :=
  let h1 : Int := if heart_rate_input > (MAX_HR_LIMIT : Int) then (MAX_HR_LIMIT : Int) else heart_rate_input
  let h2 : Int := if h1 < 0 then 0 else h1
  let d1 := roundQ h2.toNat MAX_HR_LIMIT
  let d2 := roundDyadic (d1.1 * TIMER_RELOAD_VAL) d1.2
  (fpTrunc d2 : Int)

/-! ### `evaluate_alarm_condition` -/

/-- `evaluate_alarm_condition` from the C source; the C function writes the
description into a caller-provided buffer and returns the mask, modelled
here as returning the pair (mask, description). -/
def evaluate_alarm_condition (oxygen_sat : Int) : Nat × String :=
  if oxygen_sat = 0 then (STATUS_FAILURE, "SENSOR ERROR")
  else if oxygen_sat < 90 then (STATUS_CRITICAL, "CRITICAL: Odd Pins ON")
  else if oxygen_sat < 95 then (STATUS_WARNING, "WARNING: Even Pins ON")
  else (STATUS_NORMAL, "NORMAL")

/-! ### The `fscanf(data_stream, "%d,%d", &hr, &spo2)` model

`fscanf` reads the stream character by character.  A `%d` directive first
skips whitespace (as classified by `isspace` in the `"C"` locale set by the
program), then matches an optional sign followed by at least one decimal
digit; the literal `,` in the format must match the next input character
exactly.  The call yields both integers (return value 2) exactly when both
`%d` conversions and the `,` match succeed. -/

/-- `isspace` in the `"C"` locale: space, `\t`, `\n`, `\v`, `\f`, `\r`. -/
def isSpaceC (c : Char) : Bool :=
  c = ' ' || c = '\t' || c = '\n' || c = '\x0b' || c = '\x0c' || c = '\r'

/-- `isdigit`. -/
def isDigitC (c : Char) : Bool := '0' ≤ c && c ≤ '9'

/-- Skip leading whitespace, as a `%d` directive does. -/
def skipWs : List Char → List Char
  | [] => []
  | c :: cs => if isSpaceC c then skipWs cs else c :: cs

/-- Read a maximal run of decimal digits, accumulating their value. -/
def scanNatAux : Nat → List Char → Nat × List Char
  | acc, [] => (acc, [])
  | acc, c :: cs =>
    if isDigitC c then scanNatAux (acc * 10 + (c.toNat - '0'.toNat)) cs
    else (acc, c :: cs)

/-- The body of a `%d` conversion after whitespace skipping: an optional
sign, then at least one digit.  (Integer overflow is undefined behaviour in
C and does not occur on the inputs considered here; the model keeps the
exact value.) -/
def scanSigned : List Char → Option (Int × List Char)
  | '-' :: c :: cs =>
    if isDigitC c then
      let p := scanNatAux 0 (c :: cs)
      some (-(p.1 : Int), p.2)
    else none
  | '+' :: c :: cs =>
    if isDigitC c then
      let p := scanNatAux 0 (c :: cs)
      some ((p.1 : Int), p.2)
    else none
  | c :: cs =>
    if isDigitC c then
      let p := scanNatAux 0 (c :: cs)
      some ((p.1 : Int), p.2)
    else none
  | [] => none

/-- A full `%d` directive. -/
def scanInt (input : List Char) : Option (Int × List Char) :=
  scanSigned (skipWs input)

/-- One `fscanf(data_stream, "%d,%d", &hr, &spo2)` call returning 2:
both values and the unconsumed remainder of the stream; `none` models any
return value `< 2`, which terminates the `while` loop. -/
def fscanf2 (input : List Char) : Option ((Int × Int) × List Char) :=
  match scanInt input with
  | none => none
  | some (a, r1) =>
    match r1 with
    | c :: r2 =>
      if c = ',' then
        match scanInt r2 with
        | none => none
        | some (b, r3) => some ((a, b), r3)
      else none
    | [] => none

/-! ### The `main` loop -/

/-- One console line group printed by the program.  `recordBlock` is the
four-line status block: its fields are the printed data, in order of
appearance (`timeMillis` is the `%.3f` elapsed time in thousandths; the
duty-percentage line shows `ccr / 10`, determined by `ccr`).  The other
constructors stand for the fixed text lines:
`banner1/banner2` the two startup banner lines, `completion` the
`>>> Simulation Completed Successfully.` notice, `prompt` the
`Press Enter to exit...` line, `errLine1/errLine2` the two diagnostic lines
printed when the input file is missing. -/
inductive Out where
  | banner1
  | banner2
  | recordBlock (timeMillis : Nat) (hr spo2 ccr : Int) (odr : Nat) (desc : String)
  | completion
  | prompt
  | errLine1
  | errLine2
deriving DecidableEq, Repr

/-- An observable I/O action of `main`: opening the input file for reading,
writing to standard output, or reading a character from standard input
(the final `getchar()`). -/
inductive Eff where
  | fopenRead (name : String)
  | consoleWrite (o : Out)
  | readStdin
deriving DecidableEq, Repr

/-- The cross-iteration state of the `while` loop: `packet_counter` and the
simulated clock `sys_time_sec` (a binary64 double). -/
structure LoopState where
  packet_counter : Nat
  sys_time_sec : Nat × Int
deriving DecidableEq, Repr

/-- `double sys_time_sec = 0.0; int packet_counter = 0;` -/
def initState : LoopState := ⟨0, (0, 0)⟩

/-- One iteration of the `while` loop body on a parsed record:
compute `ccr_output` and `gpio_odr`/`alarm_desc`, increment
`packet_counter`, print the status block when
`is_start || is_second_mark || is_alarm_active`, then advance
`sys_time_sec` by the double literal `0.001`. -/
def processRecord (st : LoopState) (hr spo2 : Int) : LoopState × List Out :=
  let ccr := compute_pwm_register hr
  let al := evaluate_alarm_condition spo2
  let counter := st.packet_counter + 1
  let outs :=
    if counter = 1 ∨ counter % 1000 = 0 ∨ al.1 ≠ STATUS_NORMAL then
      [Out.recordBlock (shown3 st.sys_time_sec) hr spo2 ccr al.1 al.2]
    else []
  (⟨counter, dyAdd st.sys_time_sec c001⟩, outs)

/-- The `while (fscanf(...) == 2)` loop.  Returns the final state, the
status blocks printed, and (as bookkeeping for the display-filter claims)
the list of `packet_counter` values of the printed records.  The first
argument is fuel; every successful `fscanf2` consumes at least one
character (`fscanf2_length_lt`), so `length input + 1` fuel always runs the
loop to its real end. -/
def runAux : Nat → LoopState → List Char → LoopState × List Out × List Nat
  | 0, st, _ => (st, [], [])
  | fuel + 1, st, cs =>
    match fscanf2 cs with
    | none => (st, [], [])
    | some ((hr, spo2), rest) =>
      let p := processRecord st hr spo2
      let r := runAux fuel p.1 rest
      (r.1, p.2 ++ r.2.1, (if p.2.isEmpty then [] else [p.1.packet_counter]) ++ r.2.2)

/-- The whole of `main`, as a function from the contents of
`patient_data.csv` (`none` when the file cannot be opened) to the exit
code, the trace of I/O actions, the printed-record counters, and the number
of records processed (the final `packet_counter`). -/
def mainSim (file : Option (List Char)) : Nat × List Eff × List Nat × Nat :=
  match file with
  | none =>
    (1, [Eff.fopenRead SOURCE_FILE,
         Eff.consoleWrite Out.errLine1, Eff.consoleWrite Out.errLine2], [], 0)
  | some cs =>
    let r := runAux (cs.length + 1) initState cs
    (0, Eff.fopenRead SOURCE_FILE ::
        Eff.consoleWrite Out.banner1 :: Eff.consoleWrite Out.banner2 ::
        (r.2.1.map Eff.consoleWrite ++
         [Eff.consoleWrite Out.completion, Eff.consoleWrite Out.prompt,
          Eff.readStdin]),
     r.2.2, r.1.packet_counter)

/-- The console output of a run: the written lines, in order. -/
def consoleOf (res : Nat × List Eff × List Nat × Nat) : List Out :=
  res.2.1.filterMap fun e =>
    match e with
    | Eff.consoleWrite o => some o
    | _ => none

/-! ### Correctness of the rounding model

The lemmas below establish what is needed about `roundQ`: its significand
is normalized (`roundQ_m_le`), and its value never drops below any
representable number that is at most the exact input
(`roundQ_lower`).  Together these give that the simulated clock never
decreases. -/

theorem bitsAux_zero (f : Nat) : bitsAux f 0 = 0 := by
  cases f <;> rfl

theorem bitsAux_correct :
    ∀ f n, n ≤ f → 1 ≤ n → 2 ^ (bitsAux f n - 1) ≤ n ∧ n < 2 ^ bitsAux f n := by
  intro f
  induction f with
  | zero => intro n hn h1; omega
  | succ f ih =>
    intro n hn h1
    have hne : ¬ n = 0 := by omega
    simp only [bitsAux, if_neg hne]
    rcases Nat.lt_or_ge n 2 with h2 | h2
    · have hn1 : n = 1 := by omega
      subst hn1
      simp [bitsAux_zero]
    · have hhalf1 : 1 ≤ n / 2 := by omega
      have hhalff : n / 2 ≤ f := by omega
      obtain ⟨hb1, hb2⟩ := ih (n / 2) hhalff hhalf1
      set b := bitsAux f (n / 2) with hbdef
      have hbpos : 1 ≤ b := by
        by_contra hb
        have : b = 0 := by omega
        rw [this] at hb2
        simp at hb2
        omega
      have e1 : 2 ^ b = 2 ^ (b - 1) * 2 := by
        rw [← pow_succ]
        congr 1
        omega
      have e2 : 2 ^ (b + 1) = 2 ^ b * 2 := by
        rw [← pow_succ]
      simp only [Nat.add_sub_cancel]
      omega

theorem bits_correct (n : Nat) (h : 1 ≤ n) :
    2 ^ (bits n - 1) ≤ n ∧ n < 2 ^ bits n :=
  bitsAux_correct n n le_rfl h

theorem bits_pos (n : Nat) (h : 1 ≤ n) : 1 ≤ bits n := by
  obtain ⟨_, h2⟩ := bits_correct n h
  by_contra hb
  have : bits n = 0 := by omega
  rw [this] at h2
  simp at h2
  omega

theorem rhe_ge (a b : Nat) : a / b ≤ rhe a b := by
  simp only [rhe]
  split_ifs <;> omega

theorem rhe_le (a b : Nat) : rhe a b ≤ a / b + 1 := by
  simp only [rhe]
  split_ifs <;> omega

/-! Bridging dyadic comparisons between `ℚ` and `Nat`. -/

theorem two_zpow_pos (E : Int) : (0 : ℚ) < 2 ^ E :=
  zpow_pos (by norm_num) E

theorem two_zpow_toNat (E : Int) (h : 0 ≤ E) :
    (2 : ℚ) ^ E = ((2 ^ E.toNat : Nat) : ℚ) := by
  push_cast
  rw [← zpow_natCast (2 : ℚ) E.toNat, Int.toNat_of_nonneg h]

theorem two_zpow_neg_toNat (E : Int) (h : E < 0) :
    (2 : ℚ) ^ E = (((2 ^ (-E).toNat : Nat) : ℚ))⁻¹ := by
  rw [← two_zpow_toNat (-E) (by omega), ← zpow_neg, neg_neg]

/-- Natural-number power form of an integer power with non-negative
exponent. -/
theorem two_pow_toNat (E : Int) (h : 0 ≤ E) : (2 : ℚ) ^ E.toNat = (2 : ℚ) ^ E := by
  rw [← zpow_natCast (2 : ℚ) E.toNat, Int.toNat_of_nonneg h]

/-- `2 ^ E * d ≤ n` over `ℚ` in terms of natural-number arithmetic. -/
theorem le_bridge (d n : Nat) (E : Int) :
    ((2 : ℚ) ^ E * d ≤ n) ↔
      (if 0 ≤ E then d * 2 ^ E.toNat ≤ n else d ≤ n * 2 ^ (-E).toNat) := by
  split_ifs with hE
  · rw [two_zpow_toNat E hE, ← Nat.cast_mul, Nat.cast_le, Nat.mul_comm]
  · push_neg at hE
    rw [two_zpow_neg_toNat E hE]
    rw [inv_mul_le_iff₀ (by positivity), ← Nat.cast_mul, Nat.cast_le, Nat.mul_comm]

/-- `n < 2 ^ E * d` over `ℚ` in terms of natural-number arithmetic. -/
theorem lt_bridge (d n : Nat) (E : Int) :
    ((n : ℚ) < 2 ^ E * d) ↔
      (if 0 ≤ E then n < d * 2 ^ E.toNat else n * 2 ^ (-E).toNat < d) := by
  split_ifs with hE
  · rw [two_zpow_toNat E hE, ← Nat.cast_mul, Nat.cast_lt, Nat.mul_comm]
  · push_neg at hE
    rw [two_zpow_neg_toNat E hE]
    rw [lt_inv_mul_iff₀ (by positivity), ← Nat.cast_mul, Nat.cast_lt, Nat.mul_comm]

theorem two_zpow_natCast (k : Nat) : (2 : ℚ) ^ (k : Int) = ((2 ^ k : Nat) : ℚ) := by
  rw [zpow_natCast]
  push_cast
  ring

theorem two_zpow_add (x y : Int) : (2 : ℚ) ^ (x + y) = 2 ^ x * 2 ^ y :=
  zpow_add₀ (by norm_num) x y

theorem exponent_correct (num den : Nat) (hn : 1 ≤ num) (hd : 1 ≤ den) :
    (2 : ℚ) ^ exponent num den * den ≤ num ∧
      (num : ℚ) < 2 ^ (exponent num den + 1) * den := by
  obtain ⟨ha1, ha2⟩ := bits_correct num hn
  obtain ⟨hb1, hb2⟩ := bits_correct den hd
  have hapos := bits_pos num hn
  have hbpos := bits_pos den hd
  simp only [exponent]
  set a := bits num with hA
  set b := bits den with hB
  set e0 : Int := (a : Int) - (b : Int) with he0
  -- ℚ versions of the bits bounds
  have qa1 : (2 : ℚ) ^ ((a : Int) - 1) ≤ num := by
    have h : ((a : Int) - 1) = (((a - 1 : Nat)) : Int) := by omega
    rw [h, two_zpow_natCast, Nat.cast_le]
    exact ha1
  have qa2 : (num : ℚ) < 2 ^ (a : Int) := by
    rw [two_zpow_natCast, Nat.cast_lt]
    exact ha2
  have qb1 : (2 : ℚ) ^ ((b : Int) - 1) ≤ den := by
    have h : ((b : Int) - 1) = (((b - 1 : Nat)) : Int) := by omega
    rw [h, two_zpow_natCast, Nat.cast_le]
    exact hb1
  have qb2 : (den : ℚ) < 2 ^ (b : Int) := by
    rw [two_zpow_natCast, Nat.cast_lt]
    exact hb2
  -- the boolean test decides `2 ^ e0 * den ≤ num` over ℚ
  have hge :
      ((if 0 ≤ e0 then decide (den * 2 ^ e0.toNat ≤ num)
        else decide (den ≤ num * 2 ^ (-e0).toNat)) = true) ↔
        (2 : ℚ) ^ e0 * den ≤ num := by
    rw [le_bridge den num e0]
    split_ifs with h <;> simp
  by_cases hc : (2 : ℚ) ^ e0 * den ≤ num
  · rw [if_pos (hge.mpr hc)]
    refine ⟨hc, ?_⟩
    -- num < 2 ^ a = 2 ^ (e0 + 1) * 2 ^ (b - 1) ≤ 2 ^ (e0 + 1) * den
    have h2 : (2 : ℚ) ^ (e0 + 1) * 2 ^ ((b : Int) - 1) = 2 ^ (a : Int) := by
      rw [← two_zpow_add]
      congr 1
      omega
    have h3 : (2 : ℚ) ^ (a : Int) ≤ 2 ^ (e0 + 1) * den := by
      rw [← h2]
      have := two_zpow_pos (e0 + 1)
      exact (mul_le_mul_left this).mpr qb1
    exact lt_of_lt_of_le qa2 h3
  · rw [if_neg (fun h => hc (hge.mp h))]
    have hlt : (num : ℚ) < 2 ^ e0 * den := lt_of_not_le hc
    constructor
    · -- 2 ^ (e0 - 1) * den < 2 ^ (e0 - 1) * 2 ^ b = 2 ^ (a - 1) ≤ num
      have h1 : (2 : ℚ) ^ (e0 - 1) * den < 2 ^ (e0 - 1) * 2 ^ (b : Int) := by
        have := two_zpow_pos (e0 - 1)
        exact (mul_lt_mul_left this).mpr qb2
      have h2 : (2 : ℚ) ^ (e0 - 1) * 2 ^ (b : Int) = 2 ^ ((a : Int) - 1) := by
        rw [← two_zpow_add]
        congr 1
        omega
      exact le_of_lt (lt_of_lt_of_le (h2 ▸ h1) qa1)
    · rw [sub_add_cancel]
      exact hlt

/-- The exponent bounds in divided form: `2 ^ e ≤ num / den < 2 ^ (e + 1)`. -/
theorem exponent_correct_div (num den : Nat) (hn : 1 ≤ num) (hd : 1 ≤ den) :
    (2 : ℚ) ^ exponent num den ≤ (num : ℚ) / den ∧
      (num : ℚ) / den < 2 ^ (exponent num den + 1) := by
  obtain ⟨h1, h2⟩ := exponent_correct num den hn hd
  have hdpos : (0 : ℚ) < den := by exact_mod_cast hd
  constructor
  · rw [le_div_iff₀ hdpos]
    exact h1
  · rw [div_lt_iff₀ hdpos]
    exact h2

/-- `roundQm num den` is `rhe A B` for naturals `A`, `B` with
`A / B = (num / den) * 2 ^ (52 - e)`. -/
theorem roundQm_spec (num den : Nat) (hd : 1 ≤ den) :
    ∃ A B : Nat, 0 < B ∧ roundQm num den = rhe A B ∧
      (A : ℚ) / B = (num : ℚ) / den * 2 ^ ((52 : Int) - exponent num den) := by
  simp only [roundQm]
  set e := exponent num den with hedef
  have hdpos : (0 : ℚ) < den := by exact_mod_cast hd
  by_cases hle : e ≤ 52
  · refine ⟨num * 2 ^ (52 - e).toNat, den, by omega, by rw [if_pos hle], ?_⟩
    push_cast
    rw [two_pow_toNat ((52 : Int) - e) (by omega)]
    ring
  · refine ⟨num, den * 2 ^ (e - 52).toNat, ?_, by rw [if_neg hle], ?_⟩
    · have : 0 < 2 ^ (e - 52).toNat := Nat.pos_pow_of_pos _ (by omega)
      exact Nat.mul_pos (by omega) this
    · have h52 : (2 : ℚ) ^ ((52 : Int) - e) = ((2 : ℚ) ^ (e - (52 : Int)))⁻¹ := by
        rw [← zpow_neg]
        congr 1
        ring
      push_cast
      rw [two_pow_toNat (e - (52 : Int)) (by omega)]
      rw [h52, ← div_eq_mul_inv, div_div]

/-- Transfer a lower bound through natural division. -/
theorem nat_div_ge_of_q (A B K : Nat) (hB : 0 < B) (h : (K : ℚ) ≤ (A : ℚ) / B) :
    K ≤ A / B := by
  have hBq : (0 : ℚ) < B := by exact_mod_cast hB
  rw [le_div_iff₀ hBq] at h
  have : K * B ≤ A := by exact_mod_cast h
  exact (Nat.le_div_iff_mul_le hB).mpr this

/-- Transfer a strict upper bound through natural division. -/
theorem nat_div_lt_of_q (A B K : Nat) (hB : 0 < B) (h : (A : ℚ) / B < K) :
    A / B < K := by
  have hBq : (0 : ℚ) < B := by exact_mod_cast hB
  rw [div_lt_iff₀ hBq] at h
  have : A < K * B := by exact_mod_cast h
  exact (Nat.div_lt_iff_lt_mul hB).mpr this

theorem two_zpow_52 : (2 : ℚ) ^ (52 : Int) = ((2 ^ 52 : Nat) : ℚ) := by norm_num

theorem two_zpow_53 : (2 : ℚ) ^ (53 : Int) = ((2 ^ 53 : Nat) : ℚ) := by norm_num

/-- The rounded significand is normalized: it lies in `[2^52, 2^53]`. -/
theorem roundQm_bounds (num den : Nat) (hn : 1 ≤ num) (hd : 1 ≤ den) :
    2 ^ 52 ≤ roundQm num den ∧ roundQm num den ≤ 2 ^ 53 := by
  obtain ⟨A, B, hB, hm, hAB⟩ := roundQm_spec num den hd
  obtain ⟨hx1, hx2⟩ := exponent_correct_div num den hn hd
  set e := exponent num den with hedef
  set x : ℚ := (num : ℚ) / den with hxdef
  -- 2 ^ 52 ≤ A / B < 2 ^ 53 over ℚ
  have hs1 : (2 : ℚ) ^ (52 : Int) ≤ (A : ℚ) / B := by
    rw [hAB]
    calc (2 : ℚ) ^ (52 : Int) = 2 ^ e * 2 ^ ((52 : Int) - e) := by
          rw [← two_zpow_add]
          congr 1
          ring
    _ ≤ x * 2 ^ ((52 : Int) - e) :=
          mul_le_mul_of_nonneg_right hx1 (le_of_lt (two_zpow_pos _))
  have hs2 : (A : ℚ) / B < 2 ^ (53 : Int) := by
    rw [hAB]
    calc x * 2 ^ ((52 : Int) - e) < 2 ^ (e + 1) * 2 ^ ((52 : Int) - e) :=
          mul_lt_mul_of_pos_right hx2 (two_zpow_pos _)
    _ = 2 ^ (53 : Int) := by
          rw [← two_zpow_add]
          congr 1
          ring
  rw [two_zpow_52] at hs1
  rw [two_zpow_53] at hs2
  have hlow : 2 ^ 52 ≤ A / B := nat_div_ge_of_q A B _ hB hs1
  have hup : A / B < 2 ^ 53 := nat_div_lt_of_q A B _ hB hs2
  rw [hm]
  have := rhe_ge A B
  have := rhe_le A B
  omega

/-- The significand of `roundQ` is at most `2^53`. -/
theorem roundQ_fst_le (num den : Nat) (hd : 1 ≤ den) :
    (roundQ num den).1 ≤ 2 ^ 53 := by
  simp only [roundQ]
  by_cases h0 : num = 0
  · rw [if_pos h0]
    omega
  · rw [if_neg h0]
    exact (roundQm_bounds num den (by omega) hd).2

/-- Key robustness property of rounding: the rounded value of `num / den`
is at least any representable number (significand at most `2^53`) that is
at most `num / den`. -/
theorem roundQ_lower (num den : Nat) (hn : 1 ≤ num) (hd : 1 ≤ den)
    (K : Nat) (F : Int) (hK : K ≤ 2 ^ 53)
    (h : (K : ℚ) * 2 ^ F ≤ (num : ℚ) / den) :
    (K : ℚ) * 2 ^ F ≤ val (roundQ num den) := by
  obtain ⟨A, B, hB, hmEq, hAB⟩ := roundQm_spec num den hd
  obtain ⟨hx1, hx2⟩ := exponent_correct_div num den hn hd
  set e := exponent num den with hedef
  have hval : val (roundQ num den) = (roundQm num den : ℚ) * 2 ^ (e - 52) := by
    simp only [roundQ, if_neg (by omega : ¬ num = 0), val]
  have hm52 : 2 ^ 52 ≤ roundQm num den := (roundQm_bounds num den hn hd).1
  by_cases hF : e - 52 ≤ F
  · -- the bound is on the same or a coarser grid: compare significands
    set KK : Nat := K * 2 ^ (F - (e - 52)).toNat with hKKdef
    have hKKc : (KK : ℚ) = (K : ℚ) * 2 ^ (F - (e - 52)) := by
      rw [hKKdef]
      push_cast
      rw [two_pow_toNat (F - (e - 52)) (by omega)]
    have hKKs : (KK : ℚ) ≤ (A : ℚ) / B := by
      rw [hKKc, hAB]
      calc (K : ℚ) * 2 ^ (F - (e - 52))
          = ((K : ℚ) * 2 ^ F) * 2 ^ ((52 : Int) - e) := by
            rw [mul_assoc, ← two_zpow_add]
            congr 2
            ring
      _ ≤ (num : ℚ) / den * 2 ^ ((52 : Int) - e) :=
            mul_le_mul_of_nonneg_right h (le_of_lt (two_zpow_pos _))
    have hKKm : KK ≤ roundQm num den := by
      rw [hmEq]
      exact le_trans (nat_div_ge_of_q A B KK hB hKKs) (rhe_ge A B)
    rw [hval]
    calc (K : ℚ) * 2 ^ F = (KK : ℚ) * 2 ^ (e - 52) := by
          rw [hKKc, mul_assoc, ← two_zpow_add]
          congr 2
          ring
    _ ≤ (roundQm num den : ℚ) * 2 ^ (e - 52) := by
          have : (KK : ℚ) ≤ (roundQm num den : ℚ) := by exact_mod_cast hKKm
          exact mul_le_mul_of_nonneg_right this (le_of_lt (two_zpow_pos _))
  · -- the bound lives strictly below the rounding grid: it is below 2 ^ e
    rw [hval]
    calc (K : ℚ) * 2 ^ F ≤ 2 ^ (53 : Int) * 2 ^ F := by
          have hKq : (K : ℚ) ≤ ((2 ^ 53 : Nat) : ℚ) := by exact_mod_cast hK
          rw [← two_zpow_53] at hKq
          exact mul_le_mul_of_nonneg_right hKq (le_of_lt (two_zpow_pos _))
    _ ≤ 2 ^ (53 : Int) * 2 ^ (e - 53) := by
          have : F ≤ e - 53 := by omega
          exact mul_le_mul_of_nonneg_left
            (zpow_le_zpow_right₀ (by norm_num) this) (le_of_lt (two_zpow_pos _))
    _ = 2 ^ e := by
          rw [← two_zpow_add]
          congr 1
          ring
    _ = 2 ^ (52 : Int) * 2 ^ (e - 52) := by
          rw [← two_zpow_add]
          congr 1
          ring
    _ ≤ (roundQm num den : ℚ) * 2 ^ (e - 52) := by
          have hq : ((2 ^ 52 : Nat) : ℚ) ≤ (roundQm num den : ℚ) := by
            exact_mod_cast hm52
          rw [two_zpow_52]
          exact mul_le_mul_of_nonneg_right hq (le_of_lt (two_zpow_pos _))

/-- `roundDyadic` lower bound: rounding `M * 2 ^ e` never drops below a
representable number that is at most `M * 2 ^ e`. -/
theorem roundDyadic_lower (M : Nat) (e : Int) (hM : 1 ≤ M)
    (K : Nat) (F : Int) (hK : K ≤ 2 ^ 53)
    (h : (K : ℚ) * 2 ^ F ≤ (M : ℚ) * 2 ^ e) :
    (K : ℚ) * 2 ^ F ≤ val (roundDyadic M e) := by
  simp only [roundDyadic]
  by_cases he : 0 ≤ e
  · rw [if_pos he]
    refine roundQ_lower _ 1 ?_ le_rfl K F hK ?_
    · have := Nat.pos_pow_of_pos e.toNat (show 0 < 2 by omega)
      exact Nat.mul_pos (by omega) this
    · push_cast
      rw [div_one, two_pow_toNat e he]
      exact h
  · rw [if_neg he]
    refine roundQ_lower M _ (by omega) ?_ K F hK ?_
    · exact Nat.pos_pow_of_pos _ (by omega)
    · push_cast
      rw [two_pow_toNat (-e) (by omega), zpow_neg, div_inv_eq_mul]
      exact h

theorem roundDyadic_fst_le (M : Nat) (e : Int) : (roundDyadic M e).1 ≤ 2 ^ 53 := by
  simp only [roundDyadic]
  by_cases he : 0 ≤ e
  · rw [if_pos he]
    exact roundQ_fst_le _ 1 le_rfl
  · rw [if_neg he]
    exact roundQ_fst_le _ _ (Nat.pos_pow_of_pos _ (by omega))

theorem dyAdd_fst_le (x y : Nat × Int) : (dyAdd x y).1 ≤ 2 ^ 53 :=
  roundDyadic_fst_le _ _

/-- The exact value of the unrounded sum formed inside `dyAdd`. -/
theorem dyAdd_sum_val (x y : Nat × Int) :
    ((x.1 * 2 ^ (x.2 - min x.2 y.2).toNat + y.1 * 2 ^ (y.2 - min x.2 y.2).toNat : Nat) : ℚ) *
        2 ^ (min x.2 y.2) = val x + val y := by
  push_cast
  rw [two_pow_toNat (x.2 - min x.2 y.2) (by omega), two_pow_toNat (y.2 - min x.2 y.2) (by omega)]
  rw [add_mul, mul_assoc, mul_assoc, ← two_zpow_add, ← two_zpow_add]
  simp only [sub_add_cancel, val]

/-- Adding a positive double never decreases a (normalized) double:
the simulated clock is monotone. -/
theorem dyAdd_ge_left (x y : Nat × Int) (hx : x.1 ≤ 2 ^ 53) (hy : 1 ≤ y.1) :
    val x ≤ val (dyAdd x y) := by
  simp only [dyAdd]
  have hM : 1 ≤ x.1 * 2 ^ (x.2 - min x.2 y.2).toNat + y.1 * 2 ^ (y.2 - min x.2 y.2).toNat := by
    have h2 : 0 < 2 ^ (y.2 - min x.2 y.2).toNat := Nat.pos_pow_of_pos _ (by omega)
    have := Nat.mul_pos (show 0 < y.1 by omega) h2
    omega
  have hsum := dyAdd_sum_val x y
  have hyv : 0 ≤ val y := by
    simp only [val]
    positivity
  have hxle : (x.1 : ℚ) * 2 ^ x.2 ≤
      ((x.1 * 2 ^ (x.2 - min x.2 y.2).toNat + y.1 * 2 ^ (y.2 - min x.2 y.2).toNat : Nat) : ℚ) *
        2 ^ (min x.2 y.2) := by
    rw [hsum]
    simp only [val]
    exact le_add_of_nonneg_right hyv
  exact roundDyadic_lower _ _ hM x.1 x.2 hx hxle

/-- The simulated clock along the processing loop: the significand stays
normalized and the value never decreases. -/
theorem runAux_clock (fuel : Nat) :
    ∀ st cs, st.sys_time_sec.1 ≤ 2 ^ 53 →
      (runAux fuel st cs).1.sys_time_sec.1 ≤ 2 ^ 53 ∧
        val st.sys_time_sec ≤ val (runAux fuel st cs).1.sys_time_sec := by
  induction fuel with
  | zero => intro st cs h; exact ⟨h, le_rfl⟩
  | succ f ih =>
    intro st cs h
    simp only [runAux]
    rcases hf : fscanf2 cs with _ | ⟨⟨hr, spo2⟩, rest⟩
    · exact ⟨h, le_rfl⟩
    · simp only []
      have hc1 : (1 : Nat) ≤ c001.1 := by decide
      have hstep : (processRecord st hr spo2).1.sys_time_sec = dyAdd st.sys_time_sec c001 := rfl
      have hvalid : (processRecord st hr spo2).1.sys_time_sec.1 ≤ 2 ^ 53 := by
        rw [hstep]
        exact dyAdd_fst_le _ _
      have hmono : val st.sys_time_sec ≤ val (processRecord st hr spo2).1.sys_time_sec := by
        rw [hstep]
        exact dyAdd_ge_left _ _ h hc1
      obtain ⟨ih1, ih2⟩ := ih (processRecord st hr spo2).1 rest hvalid
      exact ⟨ih1, le_trans hmono ih2⟩

/-! ### The PWM mapping on the clamped range -/

/-- The body of `compute_pwm_register` after clamping, as a function of the
clamped (non-negative) heart rate. -/
def pwmOnClamped (n : Nat) : Int :=
  let d1 := roundQ n MAX_HR_LIMIT
  let d2 := roundDyadic (d1.1 * TIMER_RELOAD_VAL) d1.2
  (fpTrunc d2 : Int)

theorem compute_pwm_register_clamp (h : Int) :
    compute_pwm_register h = pwmOnClamped (min (max h 0) 200).toNat := by
  simp only [compute_pwm_register, pwmOnClamped, MAX_HR_LIMIT, Nat.cast_ofNat]
  by_cases h1 : h > 200
  · rw [if_pos h1, if_neg (show ¬ (200 : Int) < 0 by norm_num)]
    have hm : min (max h 0) 200 = 200 := by omega
    rw [hm]
  · rw [if_neg h1]
    by_cases h2 : h < 0
    · rw [if_pos h2]
      have hm : min (max h 0) 200 = 0 := by omega
      rw [hm]
    · rw [if_neg h2]
      have hm : min (max h 0) 200 = h := by omega
      rw [hm]

/-- On each of the 201 clamped heart rates the binary64 arithmetic of
`compute_pwm_register` is exact: the register equals 5 times the clamped
value.  Checked by evaluating the rounding model. -/
theorem pwmOnClamped_table : ∀ n : Fin 201, pwmOnClamped n.1 = 5 * (n.1 : Int) := by
  decide

/-- Closed form of `compute_pwm_register`. -/
theorem compute_pwm_register_val (h : Int) :
    compute_pwm_register h = 5 * min (max h 0) 200 := by
  rw [compute_pwm_register_clamp h]
  have hb : (min (max h 0) 200).toNat < 201 := by omega
  have ht := pwmOnClamped_table ⟨(min (max h 0) 200).toNat, hb⟩
  simp only [] at ht
  rw [ht]
  have hc : (((min (max h 0) 200).toNat : Nat) : Int) = min (max h 0) 200 := by omega
  rw [hc]

/-- The formula stated by the specification for the PWM mapper, written
from the spec's words: `round_down(clamp(h, 0, 200) / 200 * 1000)`. -/
def pwmSpecFormula (h : Int) : Int :=
  Int.floor (((min (max h 0) 200 : Int) : ℚ) / 200 * 1000)

theorem pwmSpecFormula_val (h : Int) : pwmSpecFormula h = 5 * min (max h 0) 200 := by
  unfold pwmSpecFormula
  have hq : ((min (max h 0) 200 : Int) : ℚ) / 200 * 1000 =
      ((5 * min (max h 0) 200 : Int) : ℚ) := by
    push_cast
    ring
  rw [hq, Int.floor_intCast]

/-! ### Progress of the `fscanf` model

Each successful `fscanf2` consumes at least one character, so fuel
`length input + 1` always runs the loop to its true end. -/

theorem skipWs_length (cs : List Char) : (skipWs cs).length ≤ cs.length := by
  induction cs with
  | nil => exact le_rfl
  | cons c cs ih =>
    simp only [skipWs]
    split_ifs
    · exact le_trans ih (by simp)
    · exact le_rfl

theorem scanNatAux_length (cs : List Char) :
    ∀ acc, (scanNatAux acc cs).2.length ≤ cs.length := by
  induction cs with
  | nil => intro acc; exact le_rfl
  | cons c cs ih =>
    intro acc
    simp only [scanNatAux]
    split_ifs
    · exact le_trans (ih _) (by simp)
    · exact le_rfl

theorem scanSigned_length (cs : List Char) (v : Int) (r : List Char)
    (h : scanSigned cs = some (v, r)) : r.length < cs.length := by
  rw [scanSigned.eq_def] at h
  split at h
  · -- "-" then digits
    rename_i c cs2
    split_ifs at h
    simp only [Option.some.injEq, Prod.mk.injEq] at h
    have hl := scanNatAux_length (c :: cs2) 0
    rw [← h.2]
    simp only [List.length_cons] at *
    omega
  · -- "+" then digits
    rename_i c cs2
    split_ifs at h
    simp only [Option.some.injEq, Prod.mk.injEq] at h
    have hl := scanNatAux_length (c :: cs2) 0
    rw [← h.2]
    simp only [List.length_cons] at *
    omega
  · -- digits directly
    rename_i c cs2 hne1 hne2
    split_ifs at h with hd
    simp only [Option.some.injEq, Prod.mk.injEq] at h
    have hstep : scanNatAux 0 (c :: cs2) = scanNatAux (0 * 10 + (c.toNat - '0'.toNat)) cs2 := by
      simp only [scanNatAux, hd, if_true]
    have hl := scanNatAux_length cs2 (0 * 10 + (c.toNat - '0'.toNat))
    rw [← h.2, hstep]
    simp only [List.length_cons] at *
    omega
  · simp at h

theorem scanInt_length (cs : List Char) (v : Int) (r : List Char)
    (h : scanInt cs = some (v, r)) : r.length < cs.length :=
  lt_of_lt_of_le (scanSigned_length _ v r h) (skipWs_length cs)

/-- Every successful `fscanf2` strictly consumes input. -/
theorem fscanf2_length_lt (cs : List Char) (p : (Int × Int) × List Char)
    (h : fscanf2 cs = some p) : p.2.length < cs.length := by
  unfold fscanf2 at h
  split at h
  · exact absurd h (by simp)
  · rename_i a r1 hscan
    split at h
    · rename_i c r2
      have hr1 := scanInt_length cs a (c :: r2) hscan
      split_ifs at h with hc
      split at h
      · exact absurd h (by simp)
      · rename_i b r3 hscan2
        have hr3 := scanInt_length r2 b r3 hscan2
        simp only [Option.some.injEq] at h
        rw [← h]
        simp only [List.length_cons] at *
        omega
    · exact absurd h (by simp)

/-- A failed scan silently ends the loop: nothing more is processed or
printed. -/
theorem runAux_stop (fuel : Nat) (st : LoopState) (cs : List Char)
    (h : fscanf2 cs = none) : runAux fuel st cs = (st, [], []) := by
  cases fuel with
  | zero => rfl
  | succ f => simp only [runAux, h]

/-! ### The display filter on a long run of `80,97` records -/

/-- `n` copies of the input line `80,97`. -/
def repChunk : Nat → List Char
  | 0 => []
  | n + 1 => '8' :: '0' :: ',' :: '9' :: '7' :: '\n' :: repChunk n

theorem join_replicate_8097 (n : Nat) :
    (List.replicate n ("80,97\n".data)).flatten = repChunk n := by
  induction n with
  | zero => rfl
  | succ n ih =>
    rw [List.replicate_succ, List.flatten_cons, ih]
    rfl

theorem repChunk_length (n : Nat) : (repChunk n).length = 6 * n := by
  induction n with
  | zero => rfl
  | succ n ih =>
    simp only [repChunk, List.length_cons, ih]
    omega

theorem fscanf2_chunk (rest : List Char) :
    fscanf2 ('8' :: '0' :: ',' :: '9' :: '7' :: '\n' :: rest) =
      some ((80, 97), '\n' :: rest) := rfl

theorem fscanf2_newline (cs : List Char) : fscanf2 ('\n' :: cs) = fscanf2 cs := rfl

theorem runAux_newline (f : Nat) (st : LoopState) (cs : List Char) :
    runAux (f + 1) st ('\n' :: cs) = runAux (f + 1) st cs := by
  simp only [runAux, fscanf2_newline]

theorem runAux_chunk (f : Nat) (st : LoopState) (rest : List Char) :
    runAux (f + 1) st ('8' :: '0' :: ',' :: '9' :: '7' :: '\n' :: rest) =
      ((runAux f (processRecord st 80 97).1 ('\n' :: rest)).1,
       (processRecord st 80 97).2 ++ (runAux f (processRecord st 80 97).1 ('\n' :: rest)).2.1,
       (if (processRecord st 80 97).2.isEmpty then []
        else [(processRecord st 80 97).1.packet_counter]) ++
         (runAux f (processRecord st 80 97).1 ('\n' :: rest)).2.2) := by
  simp only [runAux, fscanf2_chunk]

theorem processRecord_8097_out (st : LoopState) :
    (processRecord st 80 97).2 =
      if st.packet_counter + 1 = 1 ∨ (st.packet_counter + 1) % 1000 = 0 then
        [Out.recordBlock (shown3 st.sys_time_sec) 80 97 (compute_pwm_register 80)
          STATUS_NORMAL "NORMAL"]
      else [] := by
  simp only [processRecord, evaluate_alarm_condition, STATUS_NORMAL]
  norm_num

theorem processRecord_8097_counter (st : LoopState) :
    (processRecord st 80 97).1.packet_counter = st.packet_counter + 1 := rfl

theorem run_chunk_printed (f : Nat) (st : LoopState) (rest : List Char) :
    (runAux (f + 1) st ('8' :: '0' :: ',' :: '9' :: '7' :: '\n' :: rest)).2.2 =
      (if st.packet_counter + 1 = 1 ∨ (st.packet_counter + 1) % 1000 = 0
        then [st.packet_counter + 1] else []) ++
      (runAux f (processRecord st 80 97).1 ('\n' :: rest)).2.2 := by
  rw [runAux_chunk]
  simp only []
  congr 1
  rw [processRecord_8097_out, processRecord_8097_counter]
  by_cases hc : st.packet_counter + 1 = 1 ∨ (st.packet_counter + 1) % 1000 = 0
  · rw [if_pos hc, if_pos hc]
    rfl
  · rw [if_neg hc, if_neg hc]
    rfl

/-- The counters in `(k, k + n]` that pass the `80,97` display filter
(`counter = 1` or a multiple of 1000; the alarm is `NORMAL`). -/
def printedSeg : Nat → Nat → List Nat
  | _, 0 => []
  | k, n + 1 =>
    (if k + 1 = 1 ∨ (k + 1) % 1000 = 0 then [k + 1] else []) ++ printedSeg (k + 1) n

theorem run_rep_printed :
    ∀ n f st, n < f →
      (runAux f st (repChunk n)).2.2 = printedSeg st.packet_counter n ∧
      (runAux f st ('\n' :: repChunk n)).2.2 = printedSeg st.packet_counter n := by
  intro n
  induction n with
  | zero =>
    intro f st hf
    match f, hf with
    | f + 1, _ =>
      refine ⟨?_, ?_⟩
      · rw [show repChunk 0 = [] from rfl, runAux_stop (f + 1) st [] (by rfl)]
        rfl
      · rw [show repChunk 0 = [] from rfl, runAux_newline,
          runAux_stop (f + 1) st [] (by rfl)]
        rfl
  | succ n ih =>
    intro f st hf
    match f, hf with
    | f + 1, hf =>
      have hfn : n < f := by omega
      have h2 := (ih f (processRecord st 80 97).1 hfn).2
      have key :
          (runAux (f + 1) st (repChunk (n + 1))).2.2 =
            printedSeg st.packet_counter (n + 1) := by
        rw [show repChunk (n + 1) = '8' :: '0' :: ',' :: '9' :: '7' :: '\n' :: repChunk n
            from rfl]
        rw [run_chunk_printed, h2, processRecord_8097_counter]
        rfl
      refine ⟨key, ?_⟩
      rw [show repChunk (n + 1) = '8' :: '0' :: ',' :: '9' :: '7' :: '\n' :: repChunk n
          from rfl] at key ⊢
      rw [runAux_newline]
      exact key

/-- Projections of a successful `mainSim` run, stated on a symbolic
stream. -/
theorem mainSim_some_printed (cs : List Char) :
    (mainSim (some cs)).2.2.1 = (runAux (cs.length + 1) initState cs).2.2 := rfl

/-- The 2500-record `80,97` run: the printed counters. -/
theorem mainSim_big2500_printed :
    (mainSim (some ((List.replicate 2500 "80,97\n".data).flatten))).2.2.1 =
      printedSeg 0 2500 := by
  rw [mainSim_some_printed, join_replicate_8097 2500, repChunk_length 2500]
  exact (run_rep_printed 2500 (6 * 2500 + 1) initState (by norm_num)).1

/-- The spec-side notion used by claim C5, written from the spec's words:
a line parses as exactly two comma-separated integers when an `int,int`
scan succeeds on it and only whitespace remains. -/
def parsesAsTwoInts (l : List Char) : Bool :=
  match fscanf2 l with
  | some (_, rest) => (skipWs rest).isEmpty
  | none => false

/-- The first line of a character stream. -/
def firstLine (cs : List Char) : List Char := cs.takeWhile (fun c => c != '\n')

/-! ## The claims -/

/-- C1: for every integer heart-rate input `h`, `compute_pwm_register`
returns `round_down(clamp(h, 0, 200) / 200 * 1000)`, an integer in
`[0, 1000]`; in particular it returns 1000 for every `h ≥ 200`, 0 for every
`h ≤ 0`, and 500 for `h = 100`, and it never fails (it is a total
function). -/
theorem claim_C1 :
    (∀ h : Int, compute_pwm_register h = pwmSpecFormula h) ∧
    (∀ h : Int, 0 ≤ compute_pwm_register h ∧ compute_pwm_register h ≤ 1000) ∧
    (∀ h : Int, 200 ≤ h → compute_pwm_register h = 1000) ∧
    (∀ h : Int, h ≤ 0 → compute_pwm_register h = 0) ∧
    compute_pwm_register 100 = 500 := by
  refine ⟨?_, ?_, ?_, ?_, ?_⟩
  · intro h
    rw [compute_pwm_register_val, pwmSpecFormula_val]
  · intro h
    rw [compute_pwm_register_val]
    omega
  · intro h hh
    rw [compute_pwm_register_val]
    omega
  · intro h hh
    rw [compute_pwm_register_val]
    omega
  · rw [compute_pwm_register_val]
    norm_num

/-- Witness for C1 at concrete inputs 250 and -3. -/
theorem claim_C1_witness :
    compute_pwm_register 250 = 1000 ∧ compute_pwm_register (-3) = 0 :=
  ⟨claim_C1.2.2.1 250 (by norm_num), claim_C1.2.2.2.1 (-3) (by norm_num)⟩

/-- C2: `evaluate_alarm_condition` is a total function over all integer
SpO2 values; checking conditions in order with first match winning,
`SpO2 = 0` yields `0xFFFF` / "SENSOR ERROR", `SpO2 < 90` yields `0xAAAA` /
"CRITICAL: Odd Pins ON", `SpO2 < 95` yields `0x5555` /
"WARNING: Even Pins ON", and otherwise `0x0000` / "NORMAL"; it never
raises an error (totality is expressed by it being a Lean function). -/
theorem claim_C2 :
    ∀ s : Int,
      (s = 0 → evaluate_alarm_condition s = (0xFFFF, "SENSOR ERROR")) ∧
      (s ≠ 0 → s < 90 → evaluate_alarm_condition s = (0xAAAA, "CRITICAL: Odd Pins ON")) ∧
      (s ≠ 0 → ¬ s < 90 → s < 95 →
        evaluate_alarm_condition s = (0x5555, "WARNING: Even Pins ON")) ∧
      (s ≠ 0 → ¬ s < 90 → ¬ s < 95 →
        evaluate_alarm_condition s = (0x0000, "NORMAL")) := by
  intro s
  refine ⟨?_, ?_, ?_, ?_⟩
  · intro h
    simp [evaluate_alarm_condition, h]
    rfl
  · intro h1 h2
    simp [evaluate_alarm_condition, h1, h2]
    rfl
  · intro h1 h2 h3
    simp [evaluate_alarm_condition, h1, h2, h3]
    rfl
  · intro h1 h2 h3
    simp [evaluate_alarm_condition, h1, h2, h3]
    rfl

/-- Witness for C2 at the spec's four sample SpO2 values. -/
theorem claim_C2_witness :
    evaluate_alarm_condition 0 = (0xFFFF, "SENSOR ERROR") ∧
    evaluate_alarm_condition 85 = (0xAAAA, "CRITICAL: Odd Pins ON") ∧
    evaluate_alarm_condition 92 = (0x5555, "WARNING: Even Pins ON") ∧
    evaluate_alarm_condition 98 = (0x0000, "NORMAL") :=
  ⟨(claim_C2 0).1 rfl,
   (claim_C2 85).2.1 (by norm_num) (by norm_num),
   (claim_C2 92).2.2.1 (by norm_num) (by norm_num) (by norm_num),
   (claim_C2 98).2.2.2 (by norm_num) (by norm_num) (by norm_num)⟩

/-- C3: a processed record's status block is printed exactly when the
record is the first one (counter 1), the counter is a multiple of 1000, or
the alarm bitmask is not `0x0000`; for 2500 consecutive `80,97` records
only the records at counters 1, 1000 and 2000 are printed. -/
theorem claim_C3 :
    (∀ (st : LoopState) (hr spo2 : Int),
      (processRecord st hr spo2).2 ≠ [] ↔
        (st.packet_counter + 1 = 1 ∨ (st.packet_counter + 1) % 1000 = 0 ∨
          (evaluate_alarm_condition spo2).1 ≠ 0x0000)) ∧
    (mainSim (some ((List.replicate 2500 "80,97\n".data).flatten))).2.2.1 =
      [1, 1000, 2000] := by
  constructor
  · intro st hr spo2
    simp only [processRecord, STATUS_NORMAL]
    by_cases hc : st.packet_counter + 1 = 1 ∨ (st.packet_counter + 1) % 1000 = 0 ∨
        (evaluate_alarm_condition spo2).1 ≠ 0
    · rw [if_pos hc]
      simpa using hc
    · rw [if_neg hc]
      simpa using hc
  · rw [mainSim_big2500_printed]
    decide

/-- C4: when the input file cannot be opened, the program prints the
two-line diagnostic and exits with code 1 without processing any records;
whenever the file opens (any contents, including empty), the stream is
processed to its end, the completion notice is printed, and the exit code
is 0. -/
theorem claim_C4 :
    ((mainSim none).1 = 1 ∧
     (mainSim none).2.1 = [Eff.fopenRead SOURCE_FILE, Eff.consoleWrite Out.errLine1,
        Eff.consoleWrite Out.errLine2] ∧
     (mainSim none).2.2.2 = 0) ∧
    (∀ cs : List Char, (mainSim (some cs)).1 = 0 ∧
      Eff.consoleWrite Out.completion ∈ (mainSim (some cs)).2.1) := by
  refine ⟨⟨rfl, rfl, rfl⟩, ?_⟩
  intro cs
  refine ⟨rfl, ?_⟩
  simp [mainSim]

/-- Counterexample to C5 as stated: on input `1,2,3\n4,5\n` the first
line does not parse as exactly two comma-separated integers, yet one
record — `(1,2)`, taken from that malformed line — is processed, so it is
not the case that no record on or after the malformed line is processed. -/
theorem claim_C5_counterexample :
    parsesAsTwoInts (firstLine "1,2,3\n4,5\n".data) = false ∧
    (mainSim (some "1,2,3\n4,5\n".data)).2.2.2 = 1 := by
  constructor
  · decide
  · decide

/-- C5 (amended): a failed `fscanf "%d,%d"` scan terminates the read loop
silently — no error is reported, matching natural end-of-stream behaviour —
with no further record processed, and the program still exits with code 0.
The loop is not line-based, so a line that does not parse as exactly two
comma-separated integers need not end the loop at that line: on
`1,2,3\n4,5\n` the record `(1,2)` is still read from the malformed first
line before the scan fails, and on `1,\n2\n` the scan continues across the
newline of the malformed line `1,` and assembles the record `(1,2)` from
two lines — in both runs exactly one record is processed and the exit code
is 0. -/
theorem claim_C5 :
    (∀ (fuel : Nat) (st : LoopState) (cs : List Char),
      fscanf2 cs = none → runAux fuel st cs = (st, [], [])) ∧
    (∀ cs : List Char, (mainSim (some cs)).1 = 0) ∧
    ((mainSim (some "1,2,3\n4,5\n".data)).2.2.2 = 1 ∧
     (mainSim (some "1,2,3\n4,5\n".data)).1 = 0) ∧
    (parsesAsTwoInts (firstLine "1,\n2\n".data) = false ∧
     fscanf2 "1,\n2\n".data = some ((1, 2), ['\n']) ∧
     (mainSim (some "1,\n2\n".data)).2.2.2 = 1) := by
  refine ⟨runAux_stop, fun cs => rfl, ⟨?_, rfl⟩, ?_, ?_, ?_⟩
  · decide
  · decide
  · decide
  · decide

/-- Witness for C5: the loop stops immediately on the unparsable stream
`xyz`. -/
theorem claim_C5_witness :
    runAux 5 initState "xyz".data = (initState, [], []) :=
  claim_C5.1 5 initState "xyz".data (by decide)

/-- Counterexample to C6 as stated: the simulated clock is not incremented
by exactly 0.001 — after the first processed record of `100,98` its value
is the binary64 double nearest to 1/1000 (which exceeds 1/1000 by
3 / 144115188075855872000), not 1/1000 itself. -/
theorem claim_C6_counterexample :
    val ((runAux 2 initState "100,98\n".data).1.sys_time_sec) ≠ 1 / 1000 := by
  have h : (runAux 2 initState "100,98\n".data).1.sys_time_sec =
      (4611686018427388, -62) := by decide
  rw [h]
  simp only [val]
  rw [show ((-62 : Int)) = -(62 : Int) from rfl, zpow_neg]
  norm_num

/-- C6 (amended): the simulated clock starts at 0 and is advanced once per
processed sample, after the optional print (the printed block shows the
pre-update clock), by the binary64 double nearest to 0.001 (`c001`); it
never decreases; and the elapsed times shown (at 3 decimals) for the three
records of `100,98\n150,92\n60,0\n` are 0.000, 0.001 and 0.002. -/
theorem claim_C6 :
    val initState.sys_time_sec = 0 ∧
    (∀ (st : LoopState) (hr spo2 : Int),
      (processRecord st hr spo2).1.sys_time_sec = dyAdd st.sys_time_sec c001 ∧
      ((processRecord st hr spo2).2 = [] ∨
        (processRecord st hr spo2).2 =
          [Out.recordBlock (shown3 st.sys_time_sec) hr spo2 (compute_pwm_register hr)
            (evaluate_alarm_condition spo2).1 (evaluate_alarm_condition spo2).2])) ∧
    (∀ (fuel : Nat) (st : LoopState) (cs : List Char),
      st.sys_time_sec.1 ≤ 2 ^ 53 →
        val st.sys_time_sec ≤ val ((runAux fuel st cs).1.sys_time_sec)) ∧
    (runAux 100 initState "100,98\n150,92\n60,0\n".data).2.1 =
      [Out.recordBlock 0 100 98 500 0x0000 "NORMAL",
       Out.recordBlock 1 150 92 750 0x5555 "WARNING: Even Pins ON",
       Out.recordBlock 2 60 0 300 0xFFFF "SENSOR ERROR"] := by
  refine ⟨?_, ?_, ?_, ?_⟩
  · simp [val, initState]
  · intro st hr spo2
    refine ⟨rfl, ?_⟩
    simp only [processRecord]
    by_cases hc : st.packet_counter + 1 = 1 ∨ (st.packet_counter + 1) % 1000 = 0 ∨
        (evaluate_alarm_condition spo2).1 ≠ STATUS_NORMAL
    · rw [if_pos hc]
      right
      rfl
    · rw [if_neg hc]
      left
      rfl
  · intro fuel st cs h
    exact (runAux_clock fuel st cs h).2
  · decide

/-- Witness for C6's monotonicity conjunct, at the initial state and a
one-record stream. -/
theorem claim_C6_witness :
    val initState.sys_time_sec ≤
      val ((runAux 2 initState "7,7\n".data).1.sys_time_sec) :=
  claim_C6.2.2.1 2 initState "7,7\n".data (by decide)

/-- Counterexample to C7 as stated: on the empty input the program does
not print only the completion notice — the startup banner is printed as
well (and the exit prompt). -/
theorem claim_C7_counterexample :
    consoleOf (mainSim (some [])) ≠ [Out.completion] ∧
    Out.banner1 ∈ consoleOf (mainSim (some [])) := by
  constructor
  · decide
  · decide

/-- C7 (amended): for an empty input file the program exits with code 0,
processes no records, and its console output is exactly the two startup
banner lines, the completion notice and the exit prompt — no per-record
output. -/
theorem claim_C7 :
    (mainSim (some [])).1 = 0 ∧
    (mainSim (some [])).2.2.2 = 0 ∧
    consoleOf (mainSim (some [])) =
      [Out.banner1, Out.banner2, Out.completion, Out.prompt] := by
  refine ⟨rfl, rfl, ?_⟩
  decide

/-- Counterexample to C8 as stated: the program does read input other than
the input file — on every successful run (here: the empty file) the final
`getchar()` reads a character from standard input. -/
theorem claim_C8_counterexample :
    Eff.readStdin ∈ (mainSim (some [])).2.1 := by
  decide

/-- C8 (amended): the program's I/O surface is reading the fixed
compiled-in input file `patient_data.csv`, writing text to standard
output, and — exactly on the runs where the file opens — reading one
character from standard input before exiting (`Press Enter to exit...`);
it reads no flags, environment variables or other configuration (the model
of `main` takes no other inputs). -/
theorem claim_C8 :
    ∀ file : Option (List Char),
      (∀ n : String, Eff.fopenRead n ∈ (mainSim file).2.1 → n = SOURCE_FILE) ∧
      (Eff.readStdin ∈ (mainSim file).2.1 ↔ file.isSome = true) := by
  intro file
  rcases file with _ | cs
  · constructor
    · intro n h
      simp [mainSim] at h
      simp [SOURCE_FILE, h]
    · simp [mainSim]
  · constructor
    · intro n h
      simp [mainSim] at h
      simp [SOURCE_FILE, h]
    · simp [mainSim]

/-- Witness for C8 at the missing-file run and the empty-file run. -/
theorem claim_C8_witness :
    "patient_data.csv" = SOURCE_FILE ∧ Eff.readStdin ∈ (mainSim (some [])).2.1 :=
  ⟨(claim_C8 none).1 "patient_data.csv" (by decide),
   ((claim_C8 (some [])).2).mpr rfl⟩

/-- C9: `compute_pwm_register h` equals exactly `5 * clamp(h, 0, 200)` —
the float arithmetic introduces no rounding error on this range — hence
the result is always a multiple of 5 and the mapper is monotone
non-decreasing. -/
theorem claim_C9 :
    (∀ h : Int, compute_pwm_register h = 5 * min (max h 0) 200) ∧
    (∀ h : Int, 5 ∣ compute_pwm_register h) ∧
    (∀ h1 h2 : Int, h1 ≤ h2 → compute_pwm_register h1 ≤ compute_pwm_register h2) := by
  refine ⟨compute_pwm_register_val, ?_, ?_⟩
  · intro h
    exact ⟨min (max h 0) 200, by rw [compute_pwm_register_val]⟩
  · intro h1 h2 hle
    rw [compute_pwm_register_val, compute_pwm_register_val]
    omega

/-- Witness for C9's monotonicity at 50 ≤ 150. -/
theorem claim_C9_witness :
    compute_pwm_register 50 ≤ compute_pwm_register 150 :=
  claim_C9.2.2 50 150 (by norm_num)

/-- C10: the description is always one of the four fixed labels and the
bitmask/description pairing is invariant: `0xFFFF` iff "SENSOR ERROR",
`0xAAAA` iff "CRITICAL: Odd Pins ON", `0x5555` iff "WARNING: Even Pins ON",
`0x0000` iff "NORMAL"; no other bitmask value is ever returned. -/
theorem claim_C10 :
    ∀ s : Int,
      (evaluate_alarm_condition s = (0xFFFF, "SENSOR ERROR") ∨
       evaluate_alarm_condition s = (0xAAAA, "CRITICAL: Odd Pins ON") ∨
       evaluate_alarm_condition s = (0x5555, "WARNING: Even Pins ON") ∨
       evaluate_alarm_condition s = (0x0000, "NORMAL")) ∧
      ((evaluate_alarm_condition s).1 = 0xFFFF ↔
        (evaluate_alarm_condition s).2 = "SENSOR ERROR") ∧
      ((evaluate_alarm_condition s).1 = 0xAAAA ↔
        (evaluate_alarm_condition s).2 = "CRITICAL: Odd Pins ON") ∧
      ((evaluate_alarm_condition s).1 = 0x5555 ↔
        (evaluate_alarm_condition s).2 = "WARNING: Even Pins ON") ∧
      ((evaluate_alarm_condition s).1 = 0x0000 ↔
        (evaluate_alarm_condition s).2 = "NORMAL") := by
  intro s
  unfold evaluate_alarm_condition
  split_ifs <;> decide

end ECG
